import Mathlib

/-
Shallow embedding of the Anki add-on "OpenAI Card Updater" (src/__init__.py)
and verification of the frozen claims about it.

Modelling conventions:
  - Python JSON values are the inductive type JVal (numbers as Int; no claim
    depends on float payloads).
  - Python dicts appearing as JSON objects and notes are association lists;
    dict.get is an Option-returning lookup.
  - Anki notes are a numeric id plus a field-name/value association list
    (field_name in note, note[field], note.flush are the only operations used).
  - config.get and os.environ.get are functions String -> Option String.
  - The network (urllib) and json.loads are oracles passed as parameters:
    the api oracle gives the outcome of the HTTP call made while processing a
    given note id, and loads gives the result of parsing a string as JSON.
  - GUI and logging calls (showWarning, tooltip, print) have no effect on the
    program state; warnings are recorded in outcome values instead.
-/

namespace OpenAICardUpdater

/-- JSON values as produced by json.loads (Python None, bool, int, str, list, dict). -/
inductive JVal where
  | jnull : JVal
  | jbool : Bool → JVal
  | jnum : Int → JVal
  | jstr : String → JVal
  | jarr : List JVal → JVal
  | jobj : List (String × JVal) → JVal

/-- dict.get on a JSON object: first binding of the key, none if absent. -/
def jobjGet : List (String × JVal) → String → Option JVal
  | [], _ => none
  | (k, v) :: rest, key => if k = key then some v else jobjGet rest key

/-- Minimal JSON string escaping used by json.dumps. -/
def escapeJsonString (s : String) : String :=
  String.join (s.data.map (fun c =>
    if c = '"' then "\\\""
    else if c = '\\' then "\\\\"
    else if c = '\n' then "\\n"
    else String.singleton c))

mutual
/-- json.dumps with default separators. -/
def JVal.dumps : JVal → String
  | .jnull => "null"
  | .jbool true => "true"
  | .jbool false => "false"
  | .jnum n => toString n
  | .jstr s => "\"" ++ escapeJsonString s ++ "\""
  | .jarr xs => "[" ++ String.intercalate ", " (dumpsList xs) ++ "]"
  | .jobj kvs => "\x7b" ++ String.intercalate ", " (dumpsObj kvs) ++ "\x7d"

def dumpsList : List JVal → List String
  | [] => []
  | v :: rest => v.dumps :: dumpsList rest

def dumpsObj : List (String × JVal) → List String
  | [] => []
  | (k, v) :: rest => ("\"" ++ escapeJsonString k ++ "\": " ++ v.dumps) :: dumpsObj rest
end

/-- Python str() applied to a JSON value, as in str(result[response_key]).
Container rendering is approximated by json.dumps; no claim depends on the
exact text written into a field, only on which fields are written. -/
def pyStr : JVal → String
  | .jstr s => s
  | .jbool true => "True"
  | .jbool false => "False"
  | .jnull => "None"
  | .jnum n => toString n
  | v => v.dumps

/-- Python truthiness of a JSON value (used by the "a or b" chains). -/
def pyTruthy : JVal → Bool
  | .jnull => false
  | .jbool b => b
  | .jnum n => n != 0
  | .jstr s => s ≠ ""
  | .jarr xs => !xs.isEmpty
  | .jobj kvs => !kvs.isEmpty

/-- Python "a or b" where a is the result of dict.get (None when absent). -/
def pyOr (v : Option JVal) (w : JVal) : JVal :=
  match v with
  | some x => if pyTruthy x then x else w
  | none => w

/-- Python str.lower() (per-character lowering). -/
def pyLower (s : String) : String :=
  String.mk (s.data.map Char.toLower)

/-- Python str.strip(): drop whitespace from both ends. -/
def pyStrip (s : String) : String :=
  String.mk (((s.data.dropWhile Char.isWhitespace).reverse.dropWhile Char.isWhitespace).reverse)

/-- Substring occurrence test, Python "p in s" on character lists. -/
def containsSub (p : List Char) : List Char → Bool
  | [] => decide (p = [])
  | c :: rest => p.isPrefixOf (c :: rest) || containsSub p rest

/-- Notes: numeric id plus ordered field-name/value map. -/
structure Note where
  id : Nat
  fields : List (String × String)
deriving DecidableEq

/-- Field lookup on the underlying association list. -/
def getField : List (String × String) → String → Option String
  | [], _ => none
  | (k, v) :: rest, f => if k = f then some v else getField rest f

/-- In-place update of the first binding of a present field (both call sites
in the source only assign to fields already present in the note). -/
def setField : List (String × String) → String → String → List (String × String)
  | [], _, _ => []
  | (k, w) :: rest, f, v => if k = f then (k, v) :: rest else (k, w) :: setField rest f v

def Note.get (n : Note) (f : String) : Option String :=
  getField n.fields f

def Note.has (n : Note) (f : String) : Bool :=
  (getField n.fields f).isSome

def Note.setF (n : Note) (f v : String) : Note :=
  { n with fields := setField n.fields f v }

/-- mw.addonManager config: key lookup returning None for absent keys. -/
def Config := String → Option String

/-- os.environ lookup. -/
def Env := String → Option String

/-- _get_api_key (src/__init__.py lines 38-48). -/
def _get_api_key (config : Config) (env : Env) : String :=
  let key := pyStrip ((config "openai_anki_api_key").getD "")
  if key ≠ "" then key
  else
    let key2 := pyStrip ((config "openai_api_key").getD "")
    if key2 ≠ "" then key2
    else
      let env_key := pyStrip ((env "OPENAI_ANKI_API_KEY").getD "")
      if env_key ≠ "" then env_key
      else ""

/-- The test "json" in text.lower() from _ensure_json_instruction. -/
def containsJson (text : String) : Bool :=
  containsSub "json".data (text.data.map Char.toLower)

/-- _ensure_json_instruction (src/__init__.py lines 65-70). -/
def _ensure_json_instruction (text : String) : String :=
  if containsJson text then text
  else if text = "" then "Return output as JSON."
  else text ++ "\n\nReturn output as JSON."

/-
_expand_fields uses re.sub with pattern "\x7b\x7b(.*?)\x7d\x7d": leftmost match,
non-greedy inner group, and "." does not match a newline. Concretely, at an
opening brace pair the match runs to the first closing brace pair, provided no
newline occurs before it; if there is no such closing pair the engine moves on
by one character. findClose returns the inner group and the remainder after
the closing pair, or none when no match starts at this opening pair.
-/
def findClose : List Char → Option (List Char × List Char)
  | [] => none
  | c :: rest =>
    if c = '}' ∧ rest.head? = some '}' then some ([], rest.tail)
    else if c = '\n' then none
    else
      match findClose rest with
      | some (inner, after) => some (c :: inner, after)
      | none => none

/-- One pass of re.sub for the placeholder pattern, with the replacement
function of _expand_fields inlined: group(1).strip() is looked up in the note,
absent fields are replaced by the empty string. fuel bounds the recursion and
is irrelevant once larger than the list length (expandGo_irrel below). -/
def expandGo (note : Note) : Nat → List Char → String
  | 0, _ => ""
  | _ + 1, [] => ""
  | fuel + 1, c :: rest =>
    if c = '{' ∧ rest.head? = some '{' then
      match findClose rest.tail with
      | some (inner, after) =>
        (match Note.get note (pyStrip (String.mk inner)) with
         | some v => v
         | none => "") ++ expandGo note fuel after
      | none => String.singleton c ++ expandGo note fuel rest
    else String.singleton c ++ expandGo note fuel rest

/-- _expand_fields (src/__init__.py lines 51-62). The config argument is only
used for debug logging in the source and has no effect on the result. -/
def _expand_fields (template : String) (note : Note) (config : Config) : String :=
  if template = "" then ""
  else expandGo note (template.data.length + 1) template.data

/-- Whether a character list contains an opening brace pair (a position where
a placeholder match attempt starts). -/
def hasOpen : List Char → Bool
  | [] => false
  | c :: rest => if c = '{' ∧ rest.head? = some '{' then true else hasOpen rest

/-- Whether a character list contains a closing brace pair. -/
def hasClose : List Char → Bool
  | [] => false
  | c :: rest => if c = '}' ∧ rest.head? = some '}' then true else hasClose rest

/-- One content block of the response envelope; fields mirror content.get("type"),
content.get("text"), content.get("json"), with none for an absent or null entry. -/
structure ContentBlock where
  ctype : Option String
  text : Option String
  jsonVal : Option JVal

/-- One output item; fields mirror item.get("type") and item.get("content"). -/
structure OutputItem where
  itype : Option String
  content : Option (List ContentBlock)

/-- The response envelope; mirrors response_json.get("output"). -/
structure Envelope where
  output : Option (List OutputItem)

/-- Inner loop of _extract_output_text over the content blocks of one item:
collects output_text texts (text or "") and short-circuits with the dumped
payload at the first output_json block whose json entry is not None. -/
def extractFromContents : List ContentBlock → List String → Sum String (List String)
  | [], texts => .inr texts
  | c :: rest, texts =>
    if c.ctype = some "output_text" then
      extractFromContents rest (texts ++ [c.text.getD ""])
    else if c.ctype = some "output_json" then
      match c.jsonVal with
      | some j => .inl (JVal.dumps j)
      | none => extractFromContents rest texts
    else extractFromContents rest texts

/-- Outer loop of _extract_output_text over output items: items whose type is
not "message" are skipped; a short-circuit from the inner loop propagates. -/
def extractFromItems : List OutputItem → List String → Sum String (List String)
  | [], texts => .inr texts
  | it :: rest, texts =>
    if it.itype ≠ some "message" then extractFromItems rest texts
    else
      match extractFromContents (it.content.getD []) texts with
      | .inl s => .inl s
      | .inr texts' => extractFromItems rest texts'

/-- _extract_output_text (src/__init__.py lines 73-88): on normal exit the
collected texts are joined with newlines, dropping falsy (empty) entries, and
the result is stripped. -/
def _extract_output_text (response_json : Envelope) : String :=
  match extractFromItems (response_json.output.getD []) [] with
  | .inl s => s
  | .inr texts => pyStrip (String.intercalate "\n" (texts.filter (fun t => t ≠ "")))

/-- Request payload of _call_openai (src/__init__.py lines 91-101), built as
the JSON object sent on the wire (dict insertion order preserved). -/
def _call_openai_payload (prompt_id prompt_version model prompt_text : String) :
    List (String × JVal) :=
  let promptObj :=
    [("id", JVal.jstr prompt_id)] ++
      (if prompt_version ≠ "" ∧ pyLower prompt_version ≠ "latest" then
        [("version", JVal.jstr prompt_version)]
      else [])
  let base :=
    [("prompt", JVal.jobj promptObj),
     ("text", JVal.jobj [("format", JVal.jobj [("type", JVal.jstr "json_object")])])]
  let withInput := base ++ (if prompt_text ≠ "" then [("input", JVal.jstr prompt_text)] else [])
  withInput ++ (if model ≠ "" then [("model", JVal.jstr model)] else [])

/-- Whether the payload's prompt object carries a version key. -/
def payloadHasVersion (payload : List (String × JVal)) : Bool :=
  match jobjGet payload "prompt" with
  | some (.jobj po) => (jobjGet po "version").isSome
  | _ => false

/-- Result of the field_map loop of _handle_response (lines 142-154). -/
structure ApplyOutcome where
  note : Note
  updated_fields : List String
  missing_fields : List String
  missing_keys : List String
deriving DecidableEq

/-- The for loop of _handle_response over field_map items: a response key
absent from the result is recorded in missing_keys, a mapped field absent from
the note in missing_fields; otherwise the field is set to str(value). -/
def applyFieldMapChecked :
    List (String × String) → List (String × JVal) → Note → ApplyOutcome
  | [], _, note => ⟨note, [], [], []⟩
  | (response_key, field_name) :: rest, kvs, note =>
    match jobjGet kvs response_key with
    | none =>
      let r := applyFieldMapChecked rest kvs note
      { r with missing_keys := response_key :: r.missing_keys }
    | some v =>
      if Note.has note field_name then
        let r := applyFieldMapChecked rest kvs (Note.setF note field_name (pyStr v))
        { r with updated_fields := field_name :: r.updated_fields }
      else
        let r := applyFieldMapChecked rest kvs note
        { r with missing_fields := field_name :: r.missing_fields }

/-- Outcomes of _handle_response. Non-applied outcomes leave the note alone.
crashedNonObject models the uncaught AttributeError raised by
result.get("success") when json.loads returned a non-dict value. -/
inductive HandleOutcome where
  | warnedNoOutput : HandleOutcome
  | warnedBadJson : HandleOutcome
  | warnedNoSuccess : JVal → HandleOutcome
  | warnedNoteChanged : HandleOutcome
  | crashedNonObject : HandleOutcome
  | applied : Note → List String → List String → List String → HandleOutcome

/-- _handle_response (src/__init__.py lines 117-184). editorNote is editor.note
at response time, note_id the id captured at dispatch, loads the json.loads
oracle. applied carries the note after the field writes together with the
updated-fields, missing-keys and missing-fields reports; flushing/saving and
the tooltip and warning dialogs do not change the note further. -/
def _handle_response (editorNote : Option Note) (note_id : Nat)
    (field_map : List (String × String)) (response_json : Envelope)
    (loads : String → Option JVal) : HandleOutcome :=
  let output_text := _extract_output_text response_json
  if output_text = "" then .warnedNoOutput
  else
    match loads output_text with
    | none => .warnedBadJson
    | some result =>
      match result with
      | .jobj kvs =>
        match jobjGet kvs "success" with
        | some (.jbool true) =>
          match editorNote with
          | none => .warnedNoteChanged
          | some note =>
            if note.id ≠ note_id then .warnedNoteChanged
            else
              let r := applyFieldMapChecked field_map kvs note
              .applied r.note r.updated_fields r.missing_keys r.missing_fields
        | _ =>
          .warnedNoSuccess
            (pyOr (jobjGet kvs "error")
              (pyOr (jobjGet kvs "message") (.jstr "OpenAI reported success=false.")))
      | _ => .crashedNonObject

/-- One configured button (dict with optional entries). -/
structure ButtonCfg where
  name : Option String
  prompt : Option String
  prompt_id : Option String
  prompt_version : Option String
  model : Option String
  field_map : Option (List (String × String))

/-- Outcome of the synchronous part of _run_button: either an abort with the
warning shown, or a dispatched background request. -/
inductive SingleOutcome where
  | aborted : String → SingleOutcome
  | dispatched : String → String → String → String → Nat → SingleOutcome

/-- _run_button (src/__init__.py lines 187-232) up to dispatch: precondition
checks in source order, then the prompt build. dispatched carries prompt_id,
prompt_text, model, prompt_version and the captured note id. -/
def _run_button (config : Config) (env : Env) (button_cfg : ButtonCfg)
    (editorNote : Option Note) : SingleOutcome :=
  let api_key := _get_api_key config env
  if api_key = "" then
    .aborted "OpenAI API key not set. Set openai_anki_api_key in config or OPENAI_ANKI_API_KEY."
  else
    let prompt_id := pyStrip ((button_cfg.prompt_id).getD "")
    if prompt_id = "" then .aborted "Button is missing prompt_id."
    else
      match editorNote with
      | none => .aborted "No note is loaded in the editor."
      | some note =>
        let prompt_text :=
          _ensure_json_instruction (_expand_fields ((button_cfg.prompt).getD "") note config)
        let model := pyStrip ((button_cfg.model).getD "")
        let prompt_version := pyStrip ((button_cfg.prompt_version).getD "latest")
        .dispatched prompt_id prompt_text model prompt_version note.id

/-- Outcome of one _call_openai call, as seen by the caller. -/
inductive ApiResult where
  | httpError : Nat → String → ApiResult
  | transportError : ApiResult
  | ok : Envelope → ApiResult

/-- The mutable counters of the bulk task. -/
structure BulkResult where
  updated : Nat
  skipped : Nat
  failed : Nat
  cancelled : Bool
deriving DecidableEq

/-- The note store backing mw.col: note id to note. -/
def Store := Nat → Note

def storeSet (store : Store) (id : Nat) (n : Note) : Store :=
  fun j => if j = id then n else store j

/-- Ambient data of the bulk task: the button config, the field_map computed
once before the loop, the config, and the oracles for the network, json.loads
and the cancellation event (indexed by completed-iteration count). -/
structure BulkCtx where
  bcfg : ButtonCfg
  field_map : List (String × String)
  config : Config
  api : Nat → ApiResult
  loads : String → Option JVal
  cancel : Nat → Bool

/-- Result of the field_map loop of the bulk task (lines 322-329): no
field-presence check is made there (missing fields were skipped earlier). -/
structure BulkApply where
  note : Note
  updated_any : Bool
  missing_keys : List String

def applyFieldMap :
    List (String × String) → List (String × JVal) → Note → BulkApply
  | [], _, note => ⟨note, false, []⟩
  | (response_key, field_name) :: rest, kvs, note =>
    match jobjGet kvs response_key with
    | none =>
      let r := applyFieldMap rest kvs note
      { r with missing_keys := response_key :: r.missing_keys }
    | some v =>
      let r := applyFieldMap rest kvs (Note.setF note field_name (pyStr v))
      { r with updated_any := true }

/-- Classified outcome of one iteration body of the bulk task (lines 277-338),
after the cancellation check and the note fetch. -/
inductive NoteStepResult where
  | skippedNoFieldMap : NoteStepResult
  | skippedMissingFields : List String → NoteStepResult
  | failedHttp : Nat → NoteStepResult
  | failedTransport : NoteStepResult
  | failedNoOutput : NoteStepResult
  | failedBadJson : NoteStepResult
  | failedNoSuccess : NoteStepResult
  | crashedNonObject : NoteStepResult
  | updatedNote : Note → NoteStepResult
  | skippedNothingUpdated : NoteStepResult

/-- One iteration body of the bulk task for the fetched note: skip checks,
prompt build, API call, extraction, JSON parse, success gate, field writes.
crashedNonObject is the uncaught AttributeError of response.get("success")
on a non-dict parse result, which aborts the whole task. -/
def bulkProcessNote (ctx : BulkCtx) (note : Note) (note_id : Nat) : NoteStepResult :=
  if ctx.field_map = [] then .skippedNoFieldMap
  else
    let missing_fields :=
      (ctx.field_map.map Prod.snd).filter (fun f => !(Note.has note f))
    if missing_fields ≠ [] then .skippedMissingFields missing_fields
    else
      let prompt_text :=
        _ensure_json_instruction (_expand_fields ((ctx.bcfg.prompt).getD "") note ctx.config)
      let model := pyStrip ((ctx.bcfg.model).getD "")
      let prompt_version := pyStrip ((ctx.bcfg.prompt_version).getD "latest")
      match ctx.api note_id with
      | .httpError code _ => .failedHttp code
      | .transportError => .failedTransport
      | .ok response_json =>
        let output_text := _extract_output_text response_json
        if output_text = "" then .failedNoOutput
        else
          match ctx.loads output_text with
          | none => .failedBadJson
          | some response =>
            match response with
            | .jobj kvs =>
              match jobjGet kvs "success" with
              | some (.jbool true) =>
                let r := applyFieldMap ctx.field_map kvs note
                if r.updated_any then .updatedNote r.note else .skippedNothingUpdated
              | _ => .failedNoSuccess
            | _ => .crashedNonObject

/-- State of the bulk task at loop exit: finished normally (possibly marked
cancelled), or aborted by an uncaught exception. Alongside the counters we
carry the note store and the log of note ids for which an API call was made. -/
inductive BulkRunState where
  | finished : BulkResult → Store → List Nat → BulkRunState
  | crashed : Store → List Nat → BulkRunState

/-- The for loop of the bulk task (lines 270-345): k counts completed
iterations, so the cancellation event is consulted at k before note k+1. -/
def bulkLoop (ctx : BulkCtx) :
    List Nat → Nat → Store → BulkResult → List Nat → BulkRunState
  | [], _, store, res, calls => .finished res store calls
  | note_id :: rest, k, store, res, calls =>
    if ctx.cancel k then .finished { res with cancelled := true } store calls
    else
      let note := store note_id
      match bulkProcessNote ctx note note_id with
      | .skippedNoFieldMap =>
        bulkLoop ctx rest (k + 1) store { res with skipped := res.skipped + 1 } calls
      | .skippedMissingFields _ =>
        bulkLoop ctx rest (k + 1) store { res with skipped := res.skipped + 1 } calls
      | .failedHttp _ =>
        bulkLoop ctx rest (k + 1) store { res with failed := res.failed + 1 } (calls ++ [note_id])
      | .failedTransport =>
        bulkLoop ctx rest (k + 1) store { res with failed := res.failed + 1 } (calls ++ [note_id])
      | .failedNoOutput =>
        bulkLoop ctx rest (k + 1) store { res with failed := res.failed + 1 } (calls ++ [note_id])
      | .failedBadJson =>
        bulkLoop ctx rest (k + 1) store { res with failed := res.failed + 1 } (calls ++ [note_id])
      | .failedNoSuccess =>
        bulkLoop ctx rest (k + 1) store { res with failed := res.failed + 1 } (calls ++ [note_id])
      | .crashedNonObject => .crashed store (calls ++ [note_id])
      | .updatedNote n =>
        bulkLoop ctx rest (k + 1) (storeSet store note_id n)
          { res with updated := res.updated + 1 } (calls ++ [note_id])
      | .skippedNothingUpdated =>
        bulkLoop ctx rest (k + 1) store { res with skipped := res.skipped + 1 } (calls ++ [note_id])

/-- Overall outcome of _run_button_bulk: precondition abort (warning dialog),
empty selection (tooltip), crash of the task (on_done turns it into the bulk
failure warning), or normal completion with the final counters. All
constructors carry the note store afterwards and the API call log. -/
inductive BulkOutcome where
  | aborted : String → Store → List Nat → BulkOutcome
  | noNotes : Store → List Nat → BulkOutcome
  | crashed : String → Store → List Nat → BulkOutcome
  | completed : BulkResult → Store → List Nat → BulkOutcome

/-- _run_button_bulk (src/__init__.py lines 235-371): precondition checks in
source order, then the task loop over the selected notes. -/
def _run_button_bulk (config : Config) (env : Env) (button_cfg : ButtonCfg)
    (note_ids : List Nat) (store : Store) (api : Nat → ApiResult)
    (loads : String → Option JVal) (cancel : Nat → Bool) : BulkOutcome :=
  let api_key := _get_api_key config env
  if api_key = "" then
    .aborted "OpenAI API key not set. Set openai_anki_api_key in config or OPENAI_ANKI_API_KEY."
      store []
  else
    let prompt_id := pyStrip ((button_cfg.prompt_id).getD "")
    if prompt_id = "" then .aborted "Button is missing prompt_id." store []
    else if note_ids = [] then .noNotes store []
    else
      let field_map := (button_cfg.field_map).getD []
      let ctx : BulkCtx :=
        { bcfg := button_cfg, field_map := field_map, config := config,
          api := api, loads := loads, cancel := cancel }
      match bulkLoop ctx note_ids 0 store ⟨0, 0, 0, false⟩ [] with
      | .finished res st calls => .completed res st calls
      | .crashed st calls => .crashed "Bulk update failed. See console for details." st calls

def BulkOutcome.resultOf : BulkOutcome → Option BulkResult
  | .completed res _ _ => some res
  | _ => none

def BulkOutcome.warningOf : BulkOutcome → Option String
  | .aborted w _ _ => some w
  | .crashed w _ _ => some w
  | _ => none

def BulkOutcome.callsOf : BulkOutcome → List Nat
  | .aborted _ _ calls => calls
  | .noNotes _ calls => calls
  | .crashed _ _ calls => calls
  | .completed _ _ calls => calls

def sumBR (r : BulkResult) : Nat :=
  r.updated + r.skipped + r.failed

/-- Whether a bulk iteration outcome is one of the counted per-note failures. -/
def isFailedStep : NoteStepResult → Bool
  | .failedHttp _ => true
  | .failedTransport => true
  | .failedNoOutput => true
  | .failedBadJson => true
  | .failedNoSuccess => true
  | _ => false

/-- Texts of the output_text blocks of one content list, in order (spec view). -/
def contentsTexts (cs : List ContentBlock) : List String :=
  cs.filterMap (fun c => if c.ctype = some "output_text" then some (c.text.getD "") else none)

/-- First output_json payload of one content list, in order (spec view). -/
def contentsJson (cs : List ContentBlock) : Option JVal :=
  cs.findSome? (fun c => if c.ctype = some "output_json" then c.jsonVal else none)

/-- Texts of all output_text blocks across the message-typed items (spec view). -/
def itemsTexts (items : List OutputItem) : List String :=
  ((items.filter (fun it => it.itype = some "message")).map
    (fun it => contentsTexts (it.content.getD []))).flatten

/-- First output_json payload across the message-typed items (spec view). -/
def itemsJson (items : List OutputItem) : Option JVal :=
  (items.filter (fun it => it.itype = some "message")).findSome?
    (fun it => contentsJson (it.content.getD []))

/-- Modelled from the spec sentence for claim C3, word for word: the texts of
all output_text content blocks across all message-typed output items,
newline-joined and trimmed, unless an output_json payload is encountered, in
which case that payload is serialized and returned immediately. -/
def extract_output_text_spec_literal (response_json : Envelope) : String :=
  match itemsJson (response_json.output.getD []) with
  | some j => JVal.dumps j
  | none => pyStrip (String.intercalate "\n" (itemsTexts (response_json.output.getD [])))

/-- The amended reading of claim C3: only the non-empty texts are joined. -/
def extract_output_text_spec_amended (response_json : Envelope) : String :=
  match itemsJson (response_json.output.getD []) with
  | some j => JVal.dumps j
  | none =>
    pyStrip (String.intercalate "\n" ((itemsTexts (response_json.output.getD [])).filter
      (fun t => t ≠ "")))

theorem containsSub_append_right (p l₁ l₂ : List Char) (h : containsSub p l₂ = true) :
    containsSub p (l₁ ++ l₂) = true := by
  induction l₁ with
  | nil => simp only [List.nil_append]; exact h
  | cons c rest ih =>
    simp only [List.cons_append, containsSub, Bool.or_eq_true]
    exact Or.inr ih

theorem containsJson_append (t s : String) (h : containsJson s = true) :
    containsJson (t ++ s) = true := by
  unfold containsJson at h ⊢
  rw [String.data_append, List.map_append]
  exact containsSub_append_right _ _ _ h

/-- C9: the JSON-instruction augmentation is idempotent, and the output of one
application always contains the substring "json" case-insensitively. -/
theorem ensure_json_instruction_idempotent (t : String) :
    _ensure_json_instruction (_ensure_json_instruction t) = _ensure_json_instruction t ∧
      containsJson (_ensure_json_instruction t) = true := by
  by_cases h : containsJson t = true
  · constructor
    · simp [_ensure_json_instruction, h]
    · rw [show _ensure_json_instruction t = t by simp [_ensure_json_instruction, h]]
      exact h
  · by_cases he : t = ""
    · subst he
      have h1 : _ensure_json_instruction "" = "Return output as JSON." := by
        simp [_ensure_json_instruction, containsJson, containsSub]
      have h2 : containsJson "Return output as JSON." = true := by decide
      refine ⟨?_, by rw [h1]; exact h2⟩
      rw [h1]
      simp [_ensure_json_instruction, h2]
    · have h1 : _ensure_json_instruction t = t ++ "\n\nReturn output as JSON." := by
        simp [_ensure_json_instruction, h, he]
      have h2 : containsJson (t ++ "\n\nReturn output as JSON.") = true :=
        containsJson_append _ _ (by decide)
      refine ⟨?_, by rw [h1]; exact h2⟩
      rw [h1]
      simp [_ensure_json_instruction, h2]

/-- C2 counterexample: for the empty template (with any note, here a concrete
one), the built prompt is the fixed JSON instruction, not the empty string:
the empty prompt IS auto-augmented by _ensure_json_instruction. -/
theorem empty_template_prompt_counterexample :
    _ensure_json_instruction
        (_expand_fields "" ⟨1, [("Front", "x")]⟩ (fun _ => none)) =
      "Return output as JSON." ∧
    _ensure_json_instruction
        (_expand_fields "" ⟨1, [("Front", "x")]⟩ (fun _ => none)) ≠ "" := by
  constructor <;> decide

/-- C2 amended: the field expansion of the empty template is the empty string,
but the JSON-instruction step then returns the fixed instruction string, so
the final prompt built from an empty template is the instruction itself. -/
theorem empty_template_prompt (note : Note) (config : Config) :
    _expand_fields "" note config = "" ∧
      _ensure_json_instruction (_expand_fields "" note config) =
        "Return output as JSON." := by
  have h : _expand_fields "" note config = "" := by simp [_expand_fields]
  refine ⟨h, ?_⟩
  rw [h]
  simp [_ensure_json_instruction, containsJson, containsSub]

/-- C8: the request payload's prompt object carries a version key exactly when
the supplied prompt_version is non-empty and not case-insensitively equal to
"latest"; an empty or literal "latest" version yields an unversioned request. -/
theorem payload_version_iff (prompt_id prompt_version model prompt_text : String) :
    payloadHasVersion (_call_openai_payload prompt_id prompt_version model prompt_text) = true ↔
      (prompt_version ≠ "" ∧ pyLower prompt_version ≠ "latest") := by
  by_cases h : prompt_version ≠ "" ∧ pyLower prompt_version ≠ "latest"
  · simp [payloadHasVersion, _call_openai_payload, jobjGet, if_pos h, h]
  · simp [payloadHasVersion, _call_openai_payload, jobjGet, if_neg h, h]

/-- C10: API-key resolution precedence: the trimmed config key
openai_anki_api_key if non-empty, else the trimmed config key openai_api_key,
else the trimmed environment variable OPENAI_ANKI_API_KEY, else the empty
string; whitespace-only values trim to empty and fall through. -/
theorem api_key_precedence (config : Config) (env : Env) :
    (pyStrip ((config "openai_anki_api_key").getD "") ≠ "" →
      _get_api_key config env = pyStrip ((config "openai_anki_api_key").getD "")) ∧
    (pyStrip ((config "openai_anki_api_key").getD "") = "" →
      pyStrip ((config "openai_api_key").getD "") ≠ "" →
      _get_api_key config env = pyStrip ((config "openai_api_key").getD "")) ∧
    (pyStrip ((config "openai_anki_api_key").getD "") = "" →
      pyStrip ((config "openai_api_key").getD "") = "" →
      pyStrip ((env "OPENAI_ANKI_API_KEY").getD "") ≠ "" →
      _get_api_key config env = pyStrip ((env "OPENAI_ANKI_API_KEY").getD "")) ∧
    (pyStrip ((config "openai_anki_api_key").getD "") = "" →
      pyStrip ((config "openai_api_key").getD "") = "" →
      pyStrip ((env "OPENAI_ANKI_API_KEY").getD "") = "" →
      _get_api_key config env = "") := by
  refine ⟨?_, ?_, ?_, ?_⟩ <;> intros <;> simp [_get_api_key, *]

/-- C10 witness: a whitespace-only primary key falls through to the secondary
config key; with all sources whitespace-only the key resolves to empty. -/
theorem api_key_precedence_witness :
    _get_api_key
        (fun k => if k = "openai_anki_api_key" then some "   " else
          if k = "openai_api_key" then some "k2" else none)
        (fun _ => none) = "k2" ∧
    _get_api_key (fun k => if k = "openai_anki_api_key" then some "   " else none)
        (fun _ => some " ") = "" := by
  constructor
  · exact (api_key_precedence
        (fun k => if k = "openai_anki_api_key" then some "   " else
          if k = "openai_api_key" then some "k2" else none)
        (fun _ => none)).2.1 (by decide) (by decide)
  · exact (api_key_precedence
        (fun k => if k = "openai_anki_api_key" then some "   " else none)
        (fun _ => some " ")).2.2.2 (by decide) (by decide) (by decide)

/-- C6: with an empty resolved API key, or a present key but an empty trimmed
prompt_id, both the single runner and the bulk runner abort with the specific
warning message, before any prompt is built: no API call is logged and the
note store is returned unchanged. -/
theorem runners_precondition_abort :
    (∀ (config : Config) (env : Env) (button_cfg : ButtonCfg) (editorNote : Option Note)
        (note_ids : List Nat) (store : Store) (api : Nat → ApiResult)
        (loads : String → Option JVal) (cancel : Nat → Bool),
      _get_api_key config env = "" →
      _run_button config env button_cfg editorNote =
          .aborted "OpenAI API key not set. Set openai_anki_api_key in config or OPENAI_ANKI_API_KEY." ∧
        _run_button_bulk config env button_cfg note_ids store api loads cancel =
          .aborted "OpenAI API key not set. Set openai_anki_api_key in config or OPENAI_ANKI_API_KEY."
            store []) ∧
    (∀ (config : Config) (env : Env) (button_cfg : ButtonCfg) (editorNote : Option Note)
        (note_ids : List Nat) (store : Store) (api : Nat → ApiResult)
        (loads : String → Option JVal) (cancel : Nat → Bool),
      _get_api_key config env ≠ "" →
      pyStrip ((button_cfg.prompt_id).getD "") = "" →
      _run_button config env button_cfg editorNote = .aborted "Button is missing prompt_id." ∧
        _run_button_bulk config env button_cfg note_ids store api loads cancel =
          .aborted "Button is missing prompt_id." store []) := by
  constructor
  · intro config env button_cfg editorNote note_ids store api loads cancel hkey
    constructor
    · simp [_run_button, hkey]
    · simp [_run_button_bulk, hkey]
  · intro config env button_cfg editorNote note_ids store api loads cancel hkey hpid
    constructor
    · simp [_run_button, hkey, hpid]
    · simp [_run_button_bulk, hkey, hpid]

/-- C6 witness: a concrete empty-key environment aborts both runners with the
key warning; a concrete keyed config with a missing prompt_id aborts both
runners with the prompt_id warning. -/
theorem runners_precondition_abort_witness :
    (_run_button (fun _ => none) (fun _ => none)
        ⟨none, none, none, none, none, none⟩ none =
      .aborted "OpenAI API key not set. Set openai_anki_api_key in config or OPENAI_ANKI_API_KEY.") ∧
    (_run_button_bulk (fun _ => some "k") (fun _ => none)
        ⟨none, none, some "  ", none, none, none⟩ [7] (fun _ => ⟨1, []⟩)
        (fun _ => .transportError) (fun _ => none) (fun _ => false) =
      .aborted "Button is missing prompt_id." (fun _ => ⟨1, []⟩) []) := by
  constructor
  · exact (runners_precondition_abort.1 (fun _ => none) (fun _ => none)
      ⟨none, none, none, none, none, none⟩ none [] (fun _ => ⟨1, []⟩)
      (fun _ => .transportError) (fun _ => none) (fun _ => false) (by decide)).1
  · exact (runners_precondition_abort.2 (fun _ => some "k") (fun _ => none)
      ⟨none, none, some "  ", none, none, none⟩ none [7] (fun _ => ⟨1, []⟩)
      (fun _ => .transportError) (fun _ => none) (fun _ => false) (by decide) (by decide)).2

theorem extractFromContents_eq (cs : List ContentBlock) (texts : List String) :
    extractFromContents cs texts =
      match contentsJson cs with
      | some j => .inl (JVal.dumps j)
      | none => .inr (texts ++ contentsTexts cs) := by
  induction cs generalizing texts with
  | nil => simp [extractFromContents, contentsJson, contentsTexts]
  | cons c rest ih =>
    by_cases hct : c.ctype = some "output_text"
    · have hcj : ¬ c.ctype = some "output_json" := by rw [hct]; decide
      simp only [extractFromContents, contentsJson, contentsTexts, hct, hcj,
        List.findSome?_cons, List.filterMap_cons, if_pos, if_neg, ite_true, ite_false]
      rw [ih]
      rcases hjs : (rest.findSome? fun c =>
          if c.ctype = some "output_json" then c.jsonVal else none) with _ | j
      · simp [contentsJson, hjs, contentsTexts]
      · simp [contentsJson, hjs]
    · by_cases hcj : c.ctype = some "output_json"
      · rcases hv : c.jsonVal with _ | j
        · simp only [extractFromContents, contentsJson, contentsTexts, hct, hcj, hv,
            List.findSome?_cons, List.filterMap_cons, ite_true, ite_false]
          exact ih texts
        · simp [extractFromContents, contentsJson, contentsTexts, hct, hcj, hv,
            List.findSome?_cons]
      · simp only [extractFromContents, contentsJson, contentsTexts, hct, hcj,
          List.findSome?_cons, List.filterMap_cons, ite_false]
        exact ih texts

theorem extractFromItems_eq (items : List OutputItem) (texts : List String) :
    extractFromItems items texts =
      match itemsJson items with
      | some j => .inl (JVal.dumps j)
      | none => .inr (texts ++ itemsTexts items) := by
  induction items generalizing texts with
  | nil => simp [extractFromItems, itemsJson, itemsTexts]
  | cons it rest ih =>
    by_cases hit : it.itype = some "message"
    · simp only [extractFromItems, hit, ne_eq, not_true_eq_false, ite_false,
        extractFromContents_eq]
      rcases hcs : contentsJson (it.content.getD []) with _ | j
      · dsimp only
        rw [ih]
        have hj : itemsJson (it :: rest) = itemsJson rest := by
          simp [itemsJson, hit, List.filter_cons, List.findSome?_cons, hcs]
        have ht : itemsTexts (it :: rest) =
            contentsTexts (it.content.getD []) ++ itemsTexts rest := by
          simp [itemsTexts, hit, List.filter_cons]
        rw [hj, ht]
        rcases hrest : itemsJson rest with _ | j'
        · simp [List.append_assoc]
        · simp
      · simp [itemsJson, hit, hcs, List.findSome?_cons, List.filter_cons]
    · simp only [extractFromItems, hit, ne_eq, not_false_eq_true, ite_true]
      rw [ih]
      simp [itemsJson, itemsTexts, hit, List.filter_cons]

/-- C3 amended: text extraction newline-joins the non-empty texts of the
output_text blocks across the message-typed output items and strips the
result, unless an output_json payload occurs among them, in which case that
payload is serialized and returned immediately. -/
theorem extract_output_text_amended (response_json : Envelope) :
    _extract_output_text response_json = extract_output_text_spec_amended response_json := by
  unfold _extract_output_text extract_output_text_spec_amended
  rw [extractFromItems_eq]
  rcases h : itemsJson (response_json.output.getD []) with _ | j <;> simp [h]

/-- C3 counterexample: with output_text blocks "a", "", "b" in one message
item, the code drops the falsy middle text before joining and yields two
lines, while the claim's join of all blocks' texts yields an inner blank
line: the two readings disagree on this envelope. -/
theorem extract_output_text_counterexample :
    _extract_output_text
        ⟨some [⟨some "message",
          some [⟨some "output_text", some "a", none⟩,
                ⟨some "output_text", some "", none⟩,
                ⟨some "output_text", some "b", none⟩]⟩]⟩ = "a\nb" ∧
    extract_output_text_spec_literal
        ⟨some [⟨some "message",
          some [⟨some "output_text", some "a", none⟩,
                ⟨some "output_text", some "", none⟩,
                ⟨some "output_text", some "b", none⟩]⟩]⟩ = "a\n\nb" ∧
    ("a\nb" : String) ≠ "a\n\nb" := by
  refine ⟨by decide, by decide, by decide⟩

theorem getField_setField (l : List (String × String)) (f v g : String) :
    getField (setField l f v) g =
      if g = f ∧ (getField l f).isSome then some v else getField l g := by
  induction l with
  | nil => simp [setField, getField]
  | cons kv rest ih =>
    obtain ⟨k, w⟩ := kv
    by_cases hk : k = f
    · subst hk
      by_cases hg : g = k
      · subst hg
        simp [setField, getField]
      · have hg' : ¬ k = g := fun h => hg h.symm
        simp [setField, getField, hg, hg']
    · by_cases hg : k = g
      · subst hg
        have hkf : ¬ k = f := hk
        have hgf : ¬ (k = f ∧ (getField ((k, w) :: rest) f).isSome = true) :=
          fun h => hk h.1
        simp [setField, getField, hk, hgf]
      · simp [setField, getField, hk, hg, ih]

theorem get_setF (n : Note) (f v g : String) :
    Note.get (Note.setF n f v) g =
      if g = f ∧ Note.has n f then some v else Note.get n g := by
  simp [Note.get, Note.setF, Note.has, getField_setField]

theorem has_setF (n : Note) (f v g : String) :
    Note.has (Note.setF n f v) g = Note.has n g := by
  unfold Note.has Note.setF
  simp only [get_setF, Note.get, Note.has]
  rw [show getField (setField n.fields f v) g =
      if g = f ∧ (getField n.fields f).isSome then some v else getField n.fields g from
    getField_setField n.fields f v g]
  by_cases h : g = f ∧ (getField n.fields f).isSome
  · rw [if_pos h]
    obtain ⟨h1, h2⟩ := h
    subst h1
    simp [h2]
  · rw [if_neg h]

theorem applyFieldMapChecked_spec (fm : List (String × String))
    (kvs : List (String × JVal)) (note : Note) :
    (∀ f, Note.get (applyFieldMapChecked fm kvs note).note f ≠ Note.get note f →
      f ∈ (applyFieldMapChecked fm kvs note).updated_fields) ∧
    (∀ f ∈ (applyFieldMapChecked fm kvs note).updated_fields,
      ∃ rk, (rk, f) ∈ fm ∧ (jobjGet kvs rk).isSome = true ∧ Note.has note f = true) ∧
    (∀ rk ∈ (applyFieldMapChecked fm kvs note).missing_keys, jobjGet kvs rk = none) ∧
    (∀ f ∈ (applyFieldMapChecked fm kvs note).missing_fields,
      Note.has note f = false) := by
  induction fm generalizing note with
  | nil => simp [applyFieldMapChecked]
  | cons e rest ih =>
    obtain ⟨rk, fn⟩ := e
    rcases hk : jobjGet kvs rk with _ | v
    · have hr : applyFieldMapChecked ((rk, fn) :: rest) kvs note =
          { applyFieldMapChecked rest kvs note with
            missing_keys := rk :: (applyFieldMapChecked rest kvs note).missing_keys } := by
        simp [applyFieldMapChecked, hk]
      obtain ⟨ih1, ih2, ih3, ih4⟩ := ih note
      rw [hr]
      refine ⟨fun f hf => ih1 f hf, fun f hf => ?_, fun rk' hrk => ?_, fun f hf => ih4 f hf⟩
      · obtain ⟨rk', hm, hs, hh⟩ := ih2 f hf
        exact ⟨rk', List.mem_cons_of_mem _ hm, hs, hh⟩
      · rcases List.mem_cons.mp hrk with h | h
        · subst h; exact hk
        · exact ih3 rk' h
    · by_cases hhas : Note.has note fn
      · have hr : applyFieldMapChecked ((rk, fn) :: rest) kvs note =
            { applyFieldMapChecked rest kvs (Note.setF note fn (pyStr v)) with
              updated_fields :=
                fn :: (applyFieldMapChecked rest kvs (Note.setF note fn (pyStr v))).updated_fields } := by
          simp [applyFieldMapChecked, hk, hhas]
        obtain ⟨ih1, ih2, ih3, ih4⟩ := ih (Note.setF note fn (pyStr v))
        rw [hr]
        refine ⟨fun f hf => ?_, fun f hf => ?_, fun rk' hrk => ih3 rk' hrk, fun f hf => ?_⟩
        · by_cases hfn : f = fn
          · exact hfn ▸ List.mem_cons_self _ _
          · refine List.mem_cons_of_mem _ (ih1 f ?_)
            rw [get_setF, if_neg (fun hc => hfn hc.1)]
            exact hf
        · rcases List.mem_cons.mp hf with h | h
          · subst h
            exact ⟨rk, List.mem_cons_self _ _, by simp [hk], hhas⟩
          · obtain ⟨rk', hm, hs, hh⟩ := ih2 f h
            rw [has_setF] at hh
            exact ⟨rk', List.mem_cons_of_mem _ hm, hs, hh⟩
        · have := ih4 f hf
          rwa [has_setF] at this
      · have hr : applyFieldMapChecked ((rk, fn) :: rest) kvs note =
            { applyFieldMapChecked rest kvs note with
              missing_fields := fn :: (applyFieldMapChecked rest kvs note).missing_fields } := by
          simp [applyFieldMapChecked, hk, hhas]
        obtain ⟨ih1, ih2, ih3, ih4⟩ := ih note
        rw [hr]
        refine ⟨fun f hf => ih1 f hf, fun f hf => ?_, fun rk' hrk => ih3 rk' hrk,
          fun f hf => ?_⟩
        · obtain ⟨rk', hm, hs, hh⟩ := ih2 f hf
          exact ⟨rk', List.mem_cons_of_mem _ hm, hs, hh⟩
        · rcases List.mem_cons.mp hf with h | h
          · subst h
            exact Bool.not_eq_true _ ▸ (by simpa using hhas)
          · exact ih4 f h

theorem applyFieldMap_spec (fm : List (String × String))
    (kvs : List (String × JVal)) (note : Note) :
    ∀ f, Note.get (applyFieldMap fm kvs note).note f ≠ Note.get note f →
      ∃ rk, (rk, f) ∈ fm ∧ (jobjGet kvs rk).isSome = true := by
  induction fm generalizing note with
  | nil => simp [applyFieldMap]
  | cons e rest ih =>
    obtain ⟨rk, fn⟩ := e
    intro f hf
    rcases hk : jobjGet kvs rk with _ | v
    · have hr : (applyFieldMap ((rk, fn) :: rest) kvs note).note =
          (applyFieldMap rest kvs note).note := by
        simp [applyFieldMap, hk]
      rw [hr] at hf
      obtain ⟨rk', hm, hs⟩ := ih note f hf
      exact ⟨rk', List.mem_cons_of_mem _ hm, hs⟩
    · have hr : (applyFieldMap ((rk, fn) :: rest) kvs note).note =
          (applyFieldMap rest kvs (Note.setF note fn (pyStr v))).note := by
        simp [applyFieldMap, hk]
      rw [hr] at hf
      by_cases hfn : f = fn
      · exact ⟨rk, hfn ▸ List.mem_cons_self _ _, by simp [hk]⟩
      · by_cases hstep : Note.get (applyFieldMap rest kvs (Note.setF note fn (pyStr v))).note f ≠
            Note.get (Note.setF note fn (pyStr v)) f
        · obtain ⟨rk', hm, hs⟩ := ih (Note.setF note fn (pyStr v)) f hstep
          exact ⟨rk', List.mem_cons_of_mem _ hm, hs⟩
        · exfalso
          push_neg at hstep
          rw [hstep, get_setF, if_neg (fun hc => hfn hc.1)] at hf
          exact hf rfl

/-- C1: a note is only mutated when the extracted output parses as a JSON
object with success equal to True, and only fields whose response key is
present in the result and which exist in the note are written; absent keys
and absent fields end up in the reports and are never written. Both the
single-note handler and the per-note bulk step satisfy this. -/
theorem note_mutation_gates :
    (∀ (editorNote : Option Note) (note_id : Nat) (field_map : List (String × String))
        (response_json : Envelope) (loads : String → Option JVal)
        (n : Note) (upd mk mf : List String),
      _handle_response editorNote note_id field_map response_json loads =
          .applied n upd mk mf →
      ∃ en kvs, editorNote = some en ∧
        loads (_extract_output_text response_json) = some (.jobj kvs) ∧
        jobjGet kvs "success" = some (.jbool true) ∧
        (∀ f, Note.get n f ≠ Note.get en f → f ∈ upd) ∧
        (∀ f ∈ upd, ∃ rk, (rk, f) ∈ field_map ∧ (jobjGet kvs rk).isSome = true ∧
          Note.has en f = true) ∧
        (∀ rk ∈ mk, jobjGet kvs rk = none) ∧
        (∀ f ∈ mf, Note.has en f = false)) ∧
    (∀ (ctx : BulkCtx) (note : Note) (note_id : Nat) (n : Note),
      bulkProcessNote ctx note note_id = .updatedNote n →
      ∃ response_json kvs, ctx.api note_id = .ok response_json ∧
        ctx.loads (_extract_output_text response_json) = some (.jobj kvs) ∧
        jobjGet kvs "success" = some (.jbool true) ∧
        (∀ f, Note.get n f ≠ Note.get note f →
          ∃ rk, (rk, f) ∈ ctx.field_map ∧ (jobjGet kvs rk).isSome = true ∧
            Note.has note f = true)) := by
  constructor
  · intro editorNote note_id field_map response_json loads n upd mk mf h
    simp only [_handle_response] at h
    split at h
    · exact HandleOutcome.noConfusion h
    · split at h
      · exact HandleOutcome.noConfusion h
      · next result hloads =>
        split at h
        · next kvs =>
          split at h
          · next hsucc =>
            split at h
            · exact HandleOutcome.noConfusion h
            · next en =>
              split at h
              · exact HandleOutcome.noConfusion h
              · next hid =>
                obtain ⟨h1, h2, h3, h4⟩ := HandleOutcome.applied.inj h
                subst h1; subst h2; subst h3; subst h4
                obtain ⟨s1, s2, s3, s4⟩ := applyFieldMapChecked_spec field_map kvs en
                exact ⟨en, kvs, rfl, hloads, hsucc, s1, s2, s3, s4⟩
          · exact HandleOutcome.noConfusion h
        · exact HandleOutcome.noConfusion h
  · intro ctx note note_id n h
    simp only [bulkProcessNote] at h
    split at h
    · exact NoteStepResult.noConfusion h
    · split at h
      · exact NoteStepResult.noConfusion h
      · next hmiss =>
        split at h
        · exact NoteStepResult.noConfusion h
        · exact NoteStepResult.noConfusion h
        · next response_json hapi =>
          split at h
          · exact NoteStepResult.noConfusion h
          · split at h
            · exact NoteStepResult.noConfusion h
            · next response hloads =>
              split at h
              · next kvs =>
                split at h
                · next hsucc =>
                  split at h
                  · next hupd =>
                    obtain h1 := NoteStepResult.updatedNote.inj h
                    subst h1
                    refine ⟨response_json, kvs, hapi, hloads, hsucc, fun f hf => ?_⟩
                    obtain ⟨rk, hm, hs⟩ := applyFieldMap_spec ctx.field_map kvs note f hf
                    refine ⟨rk, hm, hs, ?_⟩
                    have hfin : f ∈ ctx.field_map.map Prod.snd :=
                      List.mem_map.mpr ⟨(rk, f), hm, rfl⟩
                    by_contra hnot
                    have : f ∈ (ctx.field_map.map Prod.snd).filter
                        (fun f => !(Note.has note f)) := by
                      refine List.mem_filter.mpr ⟨hfin, ?_⟩
                      simp [Bool.not_eq_true] at hnot ⊢
                      exact hnot
                    rw [not_ne_iff.mp hmiss] at this
                    simp at this
                  · exact NoteStepResult.noConfusion h
                · exact NoteStepResult.noConfusion h
              · exact NoteStepResult.noConfusion h

/-- C1 witness: a concrete response whose text parses to a success object with
key x present and key y absent, applied to a note holding field Front: the
handler reports Front updated and y missing, and the gates of the theorem are
discharged at this input (and likewise for a concrete bulk step). -/
theorem note_mutation_gates_witness :
    (∃ en kvs,
      (some (⟨5, [("Front", "old"), ("Back", "b")]⟩ : Note)) = some en ∧
      (fun s => if s = "RESP" then
          some (JVal.jobj [("success", .jbool true), ("x", .jstr "v")]) else none)
        (_extract_output_text
          ⟨some [⟨some "message", some [⟨some "output_text", some "RESP", none⟩]⟩]⟩) =
        some (.jobj kvs) ∧
      jobjGet kvs "success" = some (.jbool true) ∧
      (∀ f, Note.get (⟨5, [("Front", "v"), ("Back", "b")]⟩ : Note) f ≠ Note.get en f →
        f ∈ ["Front"]) ∧
      (∀ f ∈ ["Front"], ∃ rk, (rk, f) ∈ [("x", "Front"), ("y", "Gone")] ∧
        (jobjGet kvs rk).isSome = true ∧ Note.has en f = true) ∧
      (∀ rk ∈ ["y"], jobjGet kvs rk = none) ∧
      (∀ f ∈ ([] : List String), Note.has en f = false)) ∧
    (∃ response_json kvs,
      (fun (_ : Nat) => ApiResult.ok
          ⟨some [⟨some "message", some [⟨some "output_text", some "RESP", none⟩]⟩]⟩) 9 =
        .ok response_json ∧
      (fun s => if s = "RESP" then
          some (JVal.jobj [("success", .jbool true), ("x", .jstr "v")]) else none)
        (_extract_output_text response_json) = some (.jobj kvs) ∧
      jobjGet kvs "success" = some (.jbool true) ∧
      (∀ f, Note.get (⟨5, [("Front", "v")]⟩ : Note) f ≠
          Note.get (⟨5, [("Front", "old")]⟩ : Note) f →
        ∃ rk, (rk, f) ∈ [("x", "Front")] ∧ (jobjGet kvs rk).isSome = true ∧
          Note.has (⟨5, [("Front", "old")]⟩ : Note) f = true)) := by
  constructor
  · exact note_mutation_gates.1 (some ⟨5, [("Front", "old"), ("Back", "b")]⟩) 5
      [("x", "Front"), ("y", "Gone")]
      ⟨some [⟨some "message", some [⟨some "output_text", some "RESP", none⟩]⟩]⟩
      (fun s => if s = "RESP" then
        some (JVal.jobj [("success", .jbool true), ("x", .jstr "v")]) else none)
      ⟨5, [("Front", "v"), ("Back", "b")]⟩ ["Front"] ["y"] [] (by rfl)
  · exact note_mutation_gates.2
      ⟨⟨none, none, some "pid", none, none, some [("x", "Front")]⟩, [("x", "Front")],
        fun _ => none,
        fun _ => ApiResult.ok
          ⟨some [⟨some "message", some [⟨some "output_text", some "RESP", none⟩]⟩]⟩,
        fun s => if s = "RESP" then
          some (JVal.jobj [("success", .jbool true), ("x", .jstr "v")]) else none,
        fun _ => false⟩
      ⟨5, [("Front", "old")]⟩ 9 ⟨5, [("Front", "v")]⟩ (by rfl)

theorem bulkLoop_finished_spec (ctx : BulkCtx) (ids : List Nat) :
    ∀ (k : Nat) (store : Store) (res : BulkResult) (calls : List Nat)
      (res' : BulkResult) (st' : Store) (cl' : List Nat),
      bulkLoop ctx ids k store res calls = .finished res' st' cl' →
      ∃ m extra, m ≤ ids.length ∧ sumBR res' = sumBR res + m ∧
        cl' = calls ++ extra ∧ extra.Sublist (ids.take m) ∧
        ((m = ids.length ∧ res'.cancelled = res.cancelled ∧
            ∀ j, j < m → ctx.cancel (k + j) = false) ∨
         (m < ids.length ∧ res'.cancelled = true ∧ ctx.cancel (k + m) = true ∧
            ∀ j, j < m → ctx.cancel (k + j) = false)) := by
  induction ids with
  | nil =>
    intro k store res calls res' st' cl' h
    obtain ⟨h1, h2, h3⟩ := BulkRunState.finished.inj h
    subst h1; subst h3
    exact ⟨0, [], Nat.le_refl 0, by simp, by simp, List.nil_sublist _,
      Or.inl ⟨rfl, rfl, fun j hj => absurd hj (Nat.not_lt_zero j)⟩⟩
  | cons id rest ih =>
    intro k store res calls res' st' cl' h
    simp only [bulkLoop] at h
    cases hcan : ctx.cancel k with
    | true =>
      rw [hcan] at h
      simp only [if_true] at h
      obtain ⟨h1, h2, h3⟩ := BulkRunState.finished.inj h
      subst h1; subst h3
      refine ⟨0, [], Nat.zero_le _, by simp [sumBR], by simp, List.nil_sublist _,
        Or.inr ⟨by simp, rfl, ?_, fun j hj => absurd hj (Nat.not_lt_zero j)⟩⟩
      simpa using hcan
    | false =>
      rw [hcan] at h
      simp only [Bool.false_eq_true, if_false] at h
      have assemble : ∀ (store2 : Store) (res2 : BulkResult) (calls2 : List Nat),
          sumBR res2 = sumBR res + 1 → res2.cancelled = res.cancelled →
          (calls2 = calls ∨ calls2 = calls ++ [id]) →
          bulkLoop ctx rest (k + 1) store2 res2 calls2 = .finished res' st' cl' →
          ∃ m extra, m ≤ (id :: rest).length ∧ sumBR res' = sumBR res + m ∧
            cl' = calls ++ extra ∧ extra.Sublist ((id :: rest).take m) ∧
            ((m = (id :: rest).length ∧ res'.cancelled = res.cancelled ∧
                ∀ j, j < m → ctx.cancel (k + j) = false) ∨
             (m < (id :: rest).length ∧ res'.cancelled = true ∧
                ctx.cancel (k + m) = true ∧
                ∀ j, j < m → ctx.cancel (k + j) = false)) := by
        intro store2 res2 calls2 hsum hcanc hcalls h2
        obtain ⟨m, extra, hm, hs, hcl, hsub, hdisj⟩ :=
          ih (k + 1) store2 res2 calls2 res' st' cl' h2
        have hcancel_shift : ∀ j, j < m + 1 → ctx.cancel (k + j) = false → True := fun _ _ _ => trivial
        have hall : (∀ j, j < m → ctx.cancel (k + 1 + j) = false) →
            ∀ j, j < m + 1 → ctx.cancel (k + j) = false := by
          intro hf j hj
          cases j with
          | zero => simpa using hcan
          | succ j' =>
            have : j' < m := Nat.lt_of_succ_lt_succ hj
            have := hf j' this
            rwa [show k + 1 + j' = k + (j' + 1) by omega] at this
        have hdisj' : ((m + 1 = (id :: rest).length ∧ res'.cancelled = res.cancelled ∧
              ∀ j, j < m + 1 → ctx.cancel (k + j) = false) ∨
            (m + 1 < (id :: rest).length ∧ res'.cancelled = true ∧
              ctx.cancel (k + (m + 1)) = true ∧
              ∀ j, j < m + 1 → ctx.cancel (k + j) = false)) := by
          rcases hdisj with ⟨hml, hcc, hcf⟩ | ⟨hml, hcc, hct, hcf⟩
          · exact Or.inl ⟨by simp [hml], hcc.trans hcanc, hall hcf⟩
          · refine Or.inr ⟨by simpa using Nat.succ_lt_succ hml, hcc, ?_, hall hcf⟩
            rwa [show k + (m + 1) = k + 1 + m by omega]
        have hsum' : sumBR res' = sumBR res + (m + 1) := by
          rw [hs, hsum]; omega
        rcases hcalls with h3 | h3
        · subst h3
          exact ⟨m + 1, extra, by simpa using Nat.succ_le_succ hm, hsum', hcl,
            by simpa [List.take_succ_cons] using hsub.cons id, hdisj'⟩
        · subst h3
          refine ⟨m + 1, id :: extra, by simpa using Nat.succ_le_succ hm, hsum', ?_,
            by simpa [List.take_succ_cons] using hsub.cons₂ id, hdisj'⟩
          rw [hcl, List.append_assoc]
          rfl
      rcases hstep : bulkProcessNote ctx (store id) id with
        _ | mfs | code | _ | _ | _ | _ | _ | n | _ <;> rw [hstep] at h <;> dsimp only at h
      · refine assemble _ _ _ ?_ ?_ (Or.inl rfl) h
        · simp only [sumBR]; omega
        · rfl
      · refine assemble _ _ _ ?_ ?_ (Or.inl rfl) h
        · simp only [sumBR]; omega
        · rfl
      · refine assemble _ _ _ ?_ ?_ (Or.inr rfl) h
        · simp only [sumBR]; omega
        · rfl
      · refine assemble _ _ _ ?_ ?_ (Or.inr rfl) h
        · simp only [sumBR]; omega
        · rfl
      · refine assemble _ _ _ ?_ ?_ (Or.inr rfl) h
        · simp only [sumBR]; omega
        · rfl
      · refine assemble _ _ _ ?_ ?_ (Or.inr rfl) h
        · simp only [sumBR]; omega
        · rfl
      · refine assemble _ _ _ ?_ ?_ (Or.inr rfl) h
        · simp only [sumBR]; omega
        · rfl
      · exact BulkRunState.noConfusion h
      · refine assemble _ _ _ ?_ ?_ (Or.inr rfl) h
        · simp only [sumBR]; omega
        · rfl
      · refine assemble _ _ _ ?_ ?_ (Or.inr rfl) h
        · simp only [sumBR]; omega
        · rfl

/-- C4 amended: in a completed bulk run, updated+skipped+failed equals the
number of notes iterated. If the cancellation event is first set after k
completed notes with notes remaining (k strictly below the selection size),
the run reports exactly k counted notes, cancelled is true, and API calls were
made only for notes of the first k selected. If the event is never set, every
selected note is counted and cancelled is false. (If the event is only set
after the last note, the loop exits normally and cancelled stays false; see
the counterexample.) -/
theorem bulk_counters :
    (∀ (config : Config) (env : Env) (button_cfg : ButtonCfg) (note_ids : List Nat)
        (store : Store) (api : Nat → ApiResult) (loads : String → Option JVal)
        (cancel : Nat → Bool) (res : BulkResult) (st : Store) (cl : List Nat) (k₀ : Nat),
      (∀ i, cancel i = decide (k₀ ≤ i)) →
      k₀ < note_ids.length →
      _run_button_bulk config env button_cfg note_ids store api loads cancel =
          .completed res st cl →
      sumBR res = k₀ ∧ res.cancelled = true ∧ cl.Sublist (note_ids.take k₀)) ∧
    (∀ (config : Config) (env : Env) (button_cfg : ButtonCfg) (note_ids : List Nat)
        (store : Store) (api : Nat → ApiResult) (loads : String → Option JVal)
        (cancel : Nat → Bool) (res : BulkResult) (st : Store) (cl : List Nat),
      (∀ i, cancel i = false) →
      _run_button_bulk config env button_cfg note_ids store api loads cancel =
          .completed res st cl →
      sumBR res = note_ids.length ∧ res.cancelled = false) := by
  constructor
  · intro config env button_cfg note_ids store api loads cancel res st cl k₀ hthr hlt h
    simp only [_run_button_bulk] at h
    split at h
    · exact BulkOutcome.noConfusion h
    · split at h
      · exact BulkOutcome.noConfusion h
      · split at h
        · exact BulkOutcome.noConfusion h
        · split at h
          · next res2 st2 cl2 heq =>
            obtain ⟨h1, h2, h3⟩ := BulkOutcome.completed.inj h
            rw [h1, h2, h3] at heq
            obtain ⟨m, extra, hm, hs, hcl, hsub, hdisj⟩ :=
              bulkLoop_finished_spec _ note_ids 0 store ⟨0, 0, 0, false⟩ [] res st cl heq
            have hcanc : ∀ i,
                (⟨button_cfg, (button_cfg.field_map).getD [], config, api, loads, cancel⟩ :
                  BulkCtx).cancel i = decide (k₀ ≤ i) := hthr
            rcases hdisj with ⟨hml, hcc, hcf⟩ | ⟨hml, hcc, hct, hcf⟩
            · exfalso
              have := hcf k₀ (by rw [hml]; exact hlt)
              rw [hcanc] at this
              simp at this
            · have hk1 : k₀ ≤ m := by
                have := hct
                rw [hcanc] at this
                simpa using of_decide_eq_true this
              have hk2 : m ≤ k₀ := by
                by_contra hcon
                have := hcf k₀ (Nat.lt_of_not_le hcon)
                rw [hcanc] at this
                simp at this
              have hmk : m = k₀ := Nat.le_antisymm hk2 hk1
              subst hmk
              refine ⟨by simpa [sumBR] using hs, hcc, ?_⟩
              rw [hcl]
              simpa using hsub
          · exact BulkOutcome.noConfusion h
  · intro config env button_cfg note_ids store api loads cancel res st cl hnc h
    simp only [_run_button_bulk] at h
    split at h
    · exact BulkOutcome.noConfusion h
    · split at h
      · exact BulkOutcome.noConfusion h
      · split at h
        · exact BulkOutcome.noConfusion h
        · split at h
          · next res2 st2 cl2 heq =>
            obtain ⟨h1, h2, h3⟩ := BulkOutcome.completed.inj h
            rw [h1, h2, h3] at heq
            obtain ⟨m, extra, hm, hs, hcl, hsub, hdisj⟩ :=
              bulkLoop_finished_spec _ note_ids 0 store ⟨0, 0, 0, false⟩ [] res st cl heq
            have hcanc : ∀ i,
                (⟨button_cfg, (button_cfg.field_map).getD [], config, api, loads, cancel⟩ :
                  BulkCtx).cancel i = false := hnc
            rcases hdisj with ⟨hml, hcc, _⟩ | ⟨_, _, hct, _⟩
            · subst hml
              exact ⟨by simpa [sumBR] using hs, hcc⟩
            · rw [hcanc] at hct
              exact Bool.noConfusion hct
          · exact BulkOutcome.noConfusion h

/-- C4 witness: bulk run over notes 1 and 2 with no field_map configured and
the cancellation event set after the first completed note: one note counted
(skipped), cancelled true, no API call logged. -/
theorem bulk_counters_witness :
    sumBR ⟨0, 1, 0, true⟩ = 1 ∧ (⟨0, 1, 0, true⟩ : BulkResult).cancelled = true ∧
      ([] : List Nat).Sublist ([1, 2].take 1) :=
  bulk_counters.1 (fun _ => some "k") (fun _ => none)
    ⟨none, none, some "pid", none, none, none⟩ [1, 2] (fun _ => ⟨1, []⟩)
    (fun _ => .transportError) (fun _ => none) (fun i => decide (1 ≤ i))
    ⟨0, 1, 0, true⟩ (fun _ => ⟨1, []⟩) [] 1 (fun _ => rfl) (by decide) (by rfl)

/-- C4 counterexample: over a single note with the cancellation event set
right after that note completes (set at every completed count at or above 1),
the loop exhausts the selection and exits normally: the run completes with
updated+skipped+failed = 1 but cancelled = false, not true as claimed for
cancellation after the k-th completed note with k the selection size. -/
theorem bulk_cancel_counterexample :
    BulkOutcome.resultOf
        (_run_button_bulk (fun _ => some "k") (fun _ => none)
          ⟨none, none, some "pid", none, none, none⟩ [1] (fun _ => ⟨1, []⟩)
          (fun _ => .transportError) (fun _ => none) (fun i => decide (1 ≤ i))) =
      some ⟨0, 1, 0, false⟩ ∧
    (⟨0, 1, 0, false⟩ : BulkResult).cancelled ≠ true := by
  exact ⟨by rfl, by decide⟩

/-- C5 amended: an HTTP or transport error, an empty extracted text, a text
that does not parse as JSON, or a parsed JSON OBJECT without success = True,
all make the iteration a counted failure, and the loop then proceeds with the
next note, incrementing failed by one; one such failure never aborts the
batch. (A parse result that is valid JSON but not an object instead raises an
uncaught error that aborts the whole batch; see the counterexample.) -/
theorem bulk_failures_continue :
    (∀ (ctx : BulkCtx) (id : Nat) (rest : List Nat) (k : Nat) (store : Store)
        (res : BulkResult) (calls : List Nat),
      ctx.cancel k = false →
      isFailedStep (bulkProcessNote ctx (store id) id) = true →
      bulkLoop ctx (id :: rest) k store res calls =
        bulkLoop ctx rest (k + 1) store { res with failed := res.failed + 1 }
          (calls ++ [id])) ∧
    (∀ (ctx : BulkCtx) (note : Note) (id : Nat),
      ctx.field_map ≠ [] →
      (ctx.field_map.map Prod.snd).filter (fun f => !(Note.has note f)) = [] →
      ((∃ code body, ctx.api id = .httpError code body) ∨
        ctx.api id = .transportError ∨
        (∃ response_json, ctx.api id = .ok response_json ∧
          (_extract_output_text response_json = "" ∨
            ctx.loads (_extract_output_text response_json) = none ∨
            (∃ kvs, ctx.loads (_extract_output_text response_json) = some (.jobj kvs) ∧
              jobjGet kvs "success" ≠ some (.jbool true))))) →
      isFailedStep (bulkProcessNote ctx note id) = true) := by
  constructor
  · intro ctx id rest k store res calls hc hfail
    simp only [bulkLoop]
    rw [hc]
    simp only [Bool.false_eq_true, if_false]
    rcases hstep : bulkProcessNote ctx (store id) id with
      _ | mfs | code | _ | _ | _ | _ | _ | n | _ <;>
      rw [hstep] at hfail <;> simp only [isFailedStep] at hfail <;> first
      | rfl
      | exact Bool.noConfusion hfail
  · intro ctx note id hfm hmiss hdis
    simp only [bulkProcessNote]
    rw [if_neg hfm, hmiss]
    simp only [ne_eq, not_true_eq_false, if_false]
    rcases hdis with ⟨code, body, hapi⟩ | hapi | ⟨response_json, hapi, hrest⟩
    · rw [hapi]; rfl
    · rw [hapi]; rfl
    · rw [hapi]
      dsimp only
      rcases hrest with hempty | hloads | ⟨kvs, hloads, hsucc⟩
      · simp [hempty, isFailedStep]
      · by_cases hout : _extract_output_text response_json = ""
        · simp [hout, isFailedStep]
        · simp only [hout, if_neg, ite_false]
          rw [hloads]; rfl
      · by_cases hout : _extract_output_text response_json = ""
        · simp [hout, isFailedStep]
        · simp only [hout, if_neg, ite_false]
          rw [hloads]
          dsimp only
          rcases hs : jobjGet kvs "success" with _ | v
          · rfl
          · rcases v with _ | b | n | s | xs | kvs2
            · rfl
            · cases b
              · rfl
              · exact absurd hs hsucc
            · rfl
            · rfl
            · rfl
            · rfl

/-- C5 witness: with one note whose response parses to an object with
success = false, the failure step classifier fires and the loop continues to
the rest with failed incremented and the call logged. -/
theorem bulk_failures_continue_witness :
    bulkLoop
        ⟨⟨none, none, some "pid", none, none, some [("x", "F")]⟩, [("x", "F")],
          fun _ => none,
          fun _ => ApiResult.ok
            ⟨some [⟨some "message", some [⟨some "output_text", some "R", none⟩]⟩]⟩,
          fun s => if s = "R" then some (JVal.jobj [("success", .jbool false)]) else none,
          fun _ => false⟩
        [1] 0 (fun _ => ⟨1, [("F", "f")]⟩) ⟨0, 0, 0, false⟩ [] =
      bulkLoop
        ⟨⟨none, none, some "pid", none, none, some [("x", "F")]⟩, [("x", "F")],
          fun _ => none,
          fun _ => ApiResult.ok
            ⟨some [⟨some "message", some [⟨some "output_text", some "R", none⟩]⟩]⟩,
          fun s => if s = "R" then some (JVal.jobj [("success", .jbool false)]) else none,
          fun _ => false⟩
        [] 1 (fun _ => ⟨1, [("F", "f")]⟩) ⟨0, 0, 1, false⟩ [1] ∧
    isFailedStep (bulkProcessNote
        ⟨⟨none, none, some "pid", none, none, some [("x", "F")]⟩, [("x", "F")],
          fun _ => none,
          fun _ => ApiResult.ok
            ⟨some [⟨some "message", some [⟨some "output_text", some "R", none⟩]⟩]⟩,
          fun s => if s = "R" then some (JVal.jobj [("success", .jbool false)]) else none,
          fun _ => false⟩
        ⟨1, [("F", "f")]⟩ 1) = true := by
  constructor
  · exact bulk_failures_continue.1
      ⟨⟨none, none, some "pid", none, none, some [("x", "F")]⟩, [("x", "F")],
        fun _ => none,
        fun _ => ApiResult.ok
          ⟨some [⟨some "message", some [⟨some "output_text", some "R", none⟩]⟩]⟩,
        fun s => if s = "R" then some (JVal.jobj [("success", .jbool false)]) else none,
        fun _ => false⟩
      1 [] 0 (fun _ => ⟨1, [("F", "f")]⟩) ⟨0, 0, 0, false⟩ [] (by rfl) (by rfl)
  · exact bulk_failures_continue.2
      ⟨⟨none, none, some "pid", none, none, some [("x", "F")]⟩, [("x", "F")],
        fun _ => none,
        fun _ => ApiResult.ok
          ⟨some [⟨some "message", some [⟨some "output_text", some "R", none⟩]⟩]⟩,
        fun s => if s = "R" then some (JVal.jobj [("success", .jbool false)]) else none,
        fun _ => false⟩
      ⟨1, [("F", "f")]⟩ 1 (by simp)
      (by rfl)
      (Or.inr (Or.inr ⟨⟨some [⟨some "message", some [⟨some "output_text", some "R", none⟩]⟩]⟩,
        rfl, Or.inr (Or.inr ⟨[("success", .jbool false)], by rfl,
          by intro h; simp [jobjGet] at h⟩)⟩))

/-- C5 counterexample: two selected notes; the first note's response is the
valid JSON text "[1]", which parses to a list, not an object. The claim says
such a note (its parsed result lacks success = true) is counted failed and
processing continues; instead response.get("success") raises, the whole bulk
task dies, the failure warning is shown with no counters at all, and note 2
is never called. -/
theorem bulk_nonobject_counterexample :
    BulkOutcome.warningOf
        (_run_button_bulk (fun _ => some "k") (fun _ => none)
          ⟨none, none, some "pid", none, none, some [("x", "F")]⟩ [1, 2]
          (fun _ => ⟨1, [("F", "f")]⟩)
          (fun _ => .ok ⟨some [⟨some "message", some [⟨some "output_text", some "[1]", none⟩]⟩]⟩)
          (fun s => if s = "[1]" then some (.jarr [.jnum 1]) else none)
          (fun _ => false)) =
      some "Bulk update failed. See console for details." ∧
    BulkOutcome.resultOf
        (_run_button_bulk (fun _ => some "k") (fun _ => none)
          ⟨none, none, some "pid", none, none, some [("x", "F")]⟩ [1, 2]
          (fun _ => ⟨1, [("F", "f")]⟩)
          (fun _ => .ok ⟨some [⟨some "message", some [⟨some "output_text", some "[1]", none⟩]⟩]⟩)
          (fun s => if s = "[1]" then some (.jarr [.jnum 1]) else none)
          (fun _ => false)) = none ∧
    BulkOutcome.callsOf
        (_run_button_bulk (fun _ => some "k") (fun _ => none)
          ⟨none, none, some "pid", none, none, some [("x", "F")]⟩ [1, 2]
          (fun _ => ⟨1, [("F", "f")]⟩)
          (fun _ => .ok ⟨some [⟨some "message", some [⟨some "output_text", some "[1]", none⟩]⟩]⟩)
          (fun s => if s = "[1]" then some (.jarr [.jnum 1]) else none)
          (fun _ => false)) = [1] := by
  refine ⟨by rfl, by rfl, by rfl⟩

theorem findClose_length : ∀ (l inner after : List Char),
    findClose l = some (inner, after) → inner.length + 2 + after.length = l.length := by
  intro l
  induction l with
  | nil => intro inner after h; simp [findClose] at h
  | cons c rest ih =>
    intro inner after h
    simp only [findClose] at h
    split at h
    · next hcond =>
      obtain ⟨h1, h2⟩ := Prod.mk.injEq _ _ _ _ ▸ Option.some.inj h
      subst h1; subst h2
      have hne : rest ≠ [] := by
        intro hr
        rw [hr] at hcond
        simp at hcond
      have := List.length_tail rest
      have : 1 ≤ rest.length := Nat.one_le_iff_ne_zero.mpr
        (fun hz => hne (List.length_eq_zero.mp hz))
      simp [List.length_tail]
      omega
    · split at h
      · exact Option.noConfusion h
      · split at h
        · next inner' after' heq =>
          obtain ⟨h1, h2⟩ := Prod.mk.injEq _ _ _ _ ▸ Option.some.inj h
          subst h1; subst h2
          have := ih inner' after' heq
          simp only [List.length_cons]
          omega
        · exact Option.noConfusion h

theorem expandGo_irrel (note : Note) : ∀ (n : Nat) (l : List Char), l.length ≤ n →
    ∀ fuel fuel', l.length < fuel → l.length < fuel' →
    expandGo note fuel l = expandGo note fuel' l := by
  intro n
  induction n with
  | zero =>
    intro l hl fuel fuel' h1 h2
    have hnil : l = [] := List.length_eq_zero.mp (Nat.le_zero.mp hl)
    subst hnil
    cases fuel with
    | zero => omega
    | succ f =>
      cases fuel' with
      | zero => omega
      | succ f' => rfl
  | succ n ih =>
    intro l hl fuel fuel' h1 h2
    cases l with
    | nil =>
      cases fuel with
      | zero => omega
      | succ f =>
        cases fuel' with
        | zero => omega
        | succ f' => rfl
    | cons c rest =>
      cases fuel with
      | zero => omega
      | succ f =>
        cases fuel' with
        | zero => omega
        | succ f' =>
          have hrest_le : rest.length ≤ n := by
            simp only [List.length_cons] at hl
            omega
          simp only [expandGo]
          by_cases hc : c = '{' ∧ rest.head? = some '{'
          · rw [if_pos hc, if_pos hc]
            rcases hfc : findClose rest.tail with _ | ⟨inner, after⟩
            · dsimp only
              rw [ih rest hrest_le f f'
                (by simp only [List.length_cons] at h1; omega)
                (by simp only [List.length_cons] at h2; omega)]
            · dsimp only
              have hlen := findClose_length rest.tail inner after hfc
              have htail : rest.tail.length ≤ rest.length := by
                simp [List.length_tail]
              have hafter_le : after.length ≤ n := by omega
              rw [ih after hafter_le f f'
                (by simp only [List.length_cons] at h1; omega)
                (by simp only [List.length_cons] at h2; omega)]
          · rw [if_neg hc, if_neg hc]
            rw [ih rest hrest_le f f'
              (by simp only [List.length_cons] at h1; omega)
              (by simp only [List.length_cons] at h2; omega)]

theorem mk_nil_append (s : String) : String.mk [] ++ s = s := by
  cases s
  rfl

theorem singleton_append_mk (c : Char) (l : List Char) :
    String.singleton c ++ String.mk l = String.mk (c :: l) := rfl

theorem expandGo_copy (note : Note) : ∀ (l : List Char) (fuel : Nat),
    hasOpen l = false → l.length < fuel → expandGo note fuel l = String.mk l := by
  intro l
  induction l with
  | nil =>
    intro fuel _ h1
    cases fuel with
    | zero => omega
    | succ f => rfl
  | cons c rest ih =>
    intro fuel hop h1
    cases fuel with
    | zero => omega
    | succ f =>
      have hc : ¬(c = '{' ∧ rest.head? = some '{') := by
        intro hcon
        simp only [hasOpen, if_pos hcon] at hop
        exact Bool.noConfusion hop
      have hop' : hasOpen rest = false := by
        simpa only [hasOpen, if_neg hc] using hop
      simp only [expandGo, if_neg hc]
      rw [ih f hop' (by simp only [List.length_cons] at h1; omega)]
      exact singleton_append_mk c rest

theorem expandGo_pre (note : Note) : ∀ (pre rest : List Char) (fuel : Nat),
    hasOpen pre = false →
    ¬(pre.getLast? = some '{' ∧ rest.head? = some '{') →
    pre.length + rest.length < fuel →
    expandGo note fuel (pre ++ rest) =
      String.mk pre ++ expandGo note (rest.length + 1) rest := by
  intro pre
  induction pre with
  | nil =>
    intro rest fuel _ _ hlen
    simp only [List.nil_append, List.length_nil] at hlen ⊢
    rw [expandGo_irrel note rest.length rest (Nat.le_refl _) fuel (rest.length + 1)
      (by omega) (by omega)]
    exact (mk_nil_append _).symm
  | cons c pre' ih =>
    intro rest fuel hop hlast hlen
    cases fuel with
    | zero => simp at hlen
    | succ f =>
      have hc : ¬(c = '{' ∧ (pre' ++ rest).head? = some '{') := by
        rintro ⟨hc1, hc2⟩
        cases pre' with
        | nil =>
          exact hlast ⟨by simp [hc1], by simpa using hc2⟩
        | cons d pre'' =>
          have hcond : c = '{' ∧ (d :: pre'').head? = some '{' := by
            constructor
            · exact hc1
            · simpa using hc2
          simp only [hasOpen, if_pos hcond] at hop
          exact Bool.noConfusion hop
      have hop' : hasOpen pre' = false := by
        by_cases hcc : c = '{' ∧ pre'.head? = some '{'
        · simp only [hasOpen, if_pos hcc] at hop
          exact Bool.noConfusion hop
        · simpa only [hasOpen, if_neg hcc] using hop
      have hlast' : ¬(pre'.getLast? = some '{' ∧ rest.head? = some '{') := by
        cases pre' with
        | nil => rintro ⟨hl, _⟩; exact Option.noConfusion hl
        | cons d pre'' =>
          rintro ⟨hl, hr⟩
          exact hlast ⟨by rw [List.getLast?_cons_cons]; exact hl, hr⟩
      simp only [List.cons_append, expandGo, List.append_eq]
      rw [if_neg hc]
      rw [ih rest f hop' hlast' (by simp only [List.length_cons] at hlen; omega)]
      rw [← String.append_assoc, singleton_append_mk]

theorem findClose_name : ∀ (name after : List Char),
    hasClose name = false → name.getLast? ≠ some '}' → name.contains '\n' = false →
    findClose (name ++ '}' :: '}' :: after) = some (name, after) := by
  intro name
  induction name with
  | nil =>
    intro after _ _ _
    simp [findClose]
  | cons c name' ih =>
    intro after hcl hlast hnl
    have hc : ¬(c = '}' ∧ (name' ++ '}' :: '}' :: after).head? = some '}') := by
      rintro ⟨hc1, hc2⟩
      cases name' with
      | nil =>
        exact hlast (by simp [hc1])
      | cons d name'' =>
        have hcond : c = '}' ∧ (d :: name'').head? = some '}' := by
          constructor
          · exact hc1
          · simpa using hc2
        simp only [hasClose, if_pos hcond] at hcl
        exact Bool.noConfusion hcl
    have hnl1 : ¬(c = '\n') := by
      intro hcc
      rw [List.contains_cons] at hnl
      simp [hcc] at hnl
    have hnl' : name'.contains '\n' = false := by
      rw [List.contains_cons] at hnl
      simpa using (Bool.or_eq_false_iff.mp hnl).2
    have hcl' : hasClose name' = false := by
      by_cases hcc : c = '}' ∧ name'.head? = some '}'
      · simp only [hasClose, if_pos hcc] at hcl
        exact Bool.noConfusion hcl
      · simpa only [hasClose, if_neg hcc] using hcl
    have hlast' : name'.getLast? ≠ some '}' := by
      cases name' with
      | nil => intro hl; exact Option.noConfusion hl
      | cons d name'' =>
        intro hl
        exact hlast (by rw [List.getLast?_cons_cons]; exact hl)
    simp only [List.cons_append, findClose, List.append_eq]
    rw [if_neg hc, if_neg hnl1]
    rw [ih after hcl' hlast' hnl']

/-- C7: the prompt builder replaces each placeholder with the note's value of
the named field (stripped), or the empty string when the field is absent, and
preserves non-placeholder text unchanged. Stated as: (1) a template with no
opening brace pair is returned verbatim; (2) a template of the form
pre ++ "\x7b\x7b" ++ name ++ "\x7d\x7d" ++ post, with pre free of opening
pairs and not ending in an opening brace, and name free of closing pairs and
newlines and not ending in a closing brace, expands to pre, then the looked-up
value (or empty string), then the expansion of the remainder. -/
theorem expand_fields_placeholders :
    (∀ (t : String) (note : Note) (config : Config),
      hasOpen t.data = false → _expand_fields t note config = t) ∧
    (∀ (pre name post : String) (note : Note) (config : Config),
      hasOpen pre.data = false →
      pre.data.getLast? ≠ some '{' →
      hasClose name.data = false →
      name.data.getLast? ≠ some '}' →
      name.data.contains '\n' = false →
      _expand_fields (pre ++ "\x7b\x7b" ++ name ++ "\x7d\x7d" ++ post) note config =
        pre ++ ((Note.get note (pyStrip name)).getD "" ++ _expand_fields post note config)) := by
  have hpost_eq : ∀ (post : String) (note : Note) (config : Config),
      _expand_fields post note config = expandGo note (post.data.length + 1) post.data := by
    intro post note config
    by_cases hp : post = ""
    · subst hp
      rfl
    · unfold _expand_fields
      rw [if_neg hp]
  constructor
  · intro t note config hop
    by_cases ht : t = ""
    · subst ht; rfl
    · unfold _expand_fields
      rw [if_neg ht, expandGo_copy note t.data (t.data.length + 1) hop (by omega)]
  · intro pre name post note config hop hlast hcl hnlast hnl
    have hdata : (pre ++ "\x7b\x7b" ++ name ++ "\x7d\x7d" ++ post).data =
        pre.data ++ ('{' :: '{' :: (name.data ++ '}' :: '}' :: post.data)) := by
      simp only [String.data_append]
      simp [List.append_assoc]
    have hne : pre ++ "\x7b\x7b" ++ name ++ "\x7d\x7d" ++ post ≠ "" := by
      intro h
      have := congrArg String.data h
      rw [hdata] at this
      simp at this
    unfold _expand_fields
    rw [if_neg hne, hdata]
    have hfuel : pre.data.length +
        ('{' :: '{' :: (name.data ++ '}' :: '}' :: post.data)).length <
        (pre.data ++ ('{' :: '{' :: (name.data ++ '}' :: '}' :: post.data))).length + 1 := by
      rw [List.length_append]
      omega
    rw [expandGo_pre note pre.data ('{' :: '{' :: (name.data ++ '}' :: '}' :: post.data))
      _ hop (by rintro ⟨h1, h2⟩; exact hlast h1) hfuel]
    have hlen0 : post.data.length ≤ (name.data ++ '}' :: '}' :: post.data).length := by
      rw [List.length_append, List.length_cons, List.length_cons]
      omega
    have hstep : expandGo note
        (('{' :: '{' :: (name.data ++ '}' :: '}' :: post.data)).length + 1)
        ('{' :: '{' :: (name.data ++ '}' :: '}' :: post.data)) =
        (Note.get note (pyStrip name)).getD "" ++
          expandGo note (post.data.length + 1) post.data := by
      have hcnd : ('{' : Char) = '{' ∧
          ('{' :: (name.data ++ '}' :: '}' :: post.data)).head? = some '{' :=
        And.intro rfl rfl
      simp only [List.length_cons, expandGo, if_pos hcnd, List.tail_cons]
      rw [findClose_name name.data post.data hcl hnlast hnl]
      dsimp only
      refine congrArg₂ (· ++ ·) ?_ ?_
      · rw [show String.mk name.data = name from rfl]
        rcases Note.get note (pyStrip name) with _ | v <;> rfl
      · refine expandGo_irrel note ((name.data ++ '}' :: '}' :: post.data).length + 2)
          post.data (by omega) _ _ (by omega) (by omega)
    rw [hstep]
    by_cases hp : post = ""
    · subst hp
      rfl
    · rw [if_neg hp]

/-- C7 witness: expanding the concrete template
"Q: \x7b\x7bFront\x7d\x7d!" against a note whose Front field is "FVAL" gives
the prefix, the field value, and the expansion of the remainder; and a
template with no opening pair is returned verbatim. -/
theorem expand_fields_placeholders_witness :
    _expand_fields "Q: \x7b\x7bFront\x7d\x7d!" ⟨1, [("Front", "FVAL")]⟩ (fun _ => none) =
      "Q: " ++ ((Note.get ⟨1, [("Front", "FVAL")]⟩ (pyStrip "Front")).getD "" ++
        _expand_fields "!" ⟨1, [("Front", "FVAL")]⟩ (fun _ => none)) ∧
    _expand_fields "no placeholder here" ⟨1, [("Front", "FVAL")]⟩ (fun _ => none) =
      "no placeholder here" := by
  constructor
  · exact expand_fields_placeholders.2 "Q: " "Front" "!" ⟨1, [("Front", "FVAL")]⟩
      (fun _ => none) (by decide) (by decide) (by decide) (by decide) (by decide)
  · exact expand_fields_placeholders.1 "no placeholder here" ⟨1, [("Front", "FVAL")]⟩
      (fun _ => none) (by decide)

end OpenAICardUpdater
